import Mathlib

/-!
# Verification of the bookscraper deduplication / normalization pipeline

Shallow embedding of the pure normalization helpers and of the
store-facing resolver functions of `src/main.ts` (and of the later
script generation in `src/src/utils/*` / `src/unnamed/part_001`,
`part_002`, `part_004`, `part_007`).

Conventions of the embedding:

* Strings are Lean `String`s; character-level processing works on
  `String.data : List Char`.  All recursions are structural so that
  every definition evaluates inside the kernel (`decide` / `rfl`).
* The Supabase store is a Lean structure holding lists of rows.
  `.eq(...).eq(...).single()` is modelled by `singleRow` applied to a
  `List.filter`: PostgREST's `.single()` yields the row when exactly
  one row matches and otherwise fails with error code `PGRST116`,
  which every caller in the source treats as "not found".
* External effects (the `find_similar_books` RPC, the LLM enrichment
  call, the Amazon-URL search, `uuidv4`) are passed in as explicit
  oracle arguments; the timestamp columns (`created_at`/`updated_at`)
  are omitted because no control flow reads them.
-/

/-- JS `\s` for the character set that actually occurs in the scraped
data: ASCII whitespace. -/
def isWsChar (c : Char) : Bool :=
  c = ' ' || c = '\t' || c = '\n' || c = '\r' || c = '\x0b' || c = '\x0c'

/-- JS `String.prototype.trim` on a char list. -/
def trimCL (l : List Char) : List Char :=
  ((l.dropWhile isWsChar).reverse.dropWhile isWsChar).reverse

/-- JS `String.prototype.trim`. -/
def jsTrim (s : String) : String := ⟨trimCL s.data⟩

/-- JS `String.prototype.toLowerCase` (ASCII fragment). -/
def lowerCL (l : List Char) : List Char := l.map Char.toLower

/-- `text.split(/\s+/)`: split on maximal whitespace runs; a leading or
trailing run contributes an empty field, as in JS.  The Boolean flag
records whether we are inside a whitespace run. -/
def splitWsAux : Bool → List Char → List Char → List (List Char)
  | _, cur, [] => [cur.reverse]
  | inWs, cur, c :: cs =>
    if isWsChar c then
      if inWs then splitWsAux true cur cs
      else cur.reverse :: splitWsAux true [] cs
    else splitWsAux false (c :: cur) cs

/-- JS `text.split(/\s+/)`. -/
def splitWs (l : List Char) : List (List Char) := splitWsAux false [] l

/-- JS `text.replace(/\s+/g, ' ')`: collapse each maximal whitespace
run to a single space.  The flag records whether the previous
character belonged to a run already collapsed. -/
def collapseWsAux : Bool → List Char → List Char
  | _, [] => []
  | inWs, c :: cs =>
    if isWsChar c then
      if inWs then collapseWsAux true cs
      else ' ' :: collapseWsAux true cs
    else c :: collapseWsAux false cs

/-- JS `text.replace(/\s+/g, ' ')`. -/
def collapseWs (l : List Char) : List Char := collapseWsAux false l

/-- JS `text.replace(/^by\s+/i, '')`: drop a leading `by` (any case)
together with the following whitespace run, when present. -/
def stripLeadingBy (l : List Char) : List Char :=
  match l with
  | b :: y :: c :: cs =>
    if (b = 'b' || b = 'B') && (y = 'y' || y = 'Y') && isWsChar c then
      (c :: cs).dropWhile isWsChar
    else l
  | _ => l

/-- JS `text.split(sep)` for a one-character separator: every
occurrence separates fields, and empty fields are kept. -/
def splitChar (sep : Char) : List Char → List (List Char)
  | [] => [[]]
  | c :: cs =>
    if c = sep then [] :: splitChar sep cs
    else
      match splitChar sep cs with
      | w :: rest => (c :: w) :: rest
      | [] => [[c]]

/-- JS `arr.join(sep)` for a one-character separator. -/
def joinChar (sep : Char) : List (List Char) → List Char
  | [] => []
  | [w] => w
  | w :: w' :: ws => w ++ sep :: joinChar sep (w' :: ws)

/-- JS `needle ∈ haystack` (`String.prototype.includes`). -/
def containsSub (needle : List Char) : List Char → Bool
  | [] => needle.isEmpty
  | c :: cs => needle.isPrefixOf (c :: cs) || containsSub needle cs

/-- `cleanAuthorName` of `src/main.ts` (lines 104–110): trim, strip a
leading `by `, collapse whitespace, trim. -/
def cleanAuthorName (author : String) : String :=
  ⟨trimCL (collapseWs (stripLeadingBy (trimCL author.data)))⟩

/-- JS word character, `\w = [A-Za-z0-9_]`. -/
def isWordChar (c : Char) : Bool :=
  ('a' ≤ c && c ≤ 'z') || ('A' ≤ c && c ≤ 'Z') || ('0' ≤ c && c ≤ '9') || c = '_'

/-- ASCII upper-case letter, `[A-Z]`. -/
def isUpperAZ (c : Char) : Bool := 'A' ≤ c && c ≤ 'Z'

/-- JS `text.replace(/\b([A-Z])\s+/g, '$1. ')` of the `part_004`
`cleanAuthorName`: an upper-case letter that starts a word (`\b`) and
is immediately followed by a whitespace run becomes `X. `.  The first
flag records that we are consuming the whitespace run of a match just
replaced; the second records whether the previous character of the
input was a word character (for `\b`). -/
def periodAfterInitialAux : Bool → Bool → List Char → List Char
  | _, _, [] => []
  | skipping, prevWord, c :: cs =>
    if skipping && isWsChar c then periodAfterInitialAux true false cs
    else
      let pw := if skipping then false else prevWord
      if isUpperAZ c && !pw && (match cs with | d :: _ => isWsChar d | [] => false) then
        c :: '.' :: ' ' :: periodAfterInitialAux true false cs
      else
        c :: periodAfterInitialAux false (isWordChar c) cs

/-- JS `text.replace(/\b([A-Z])\s+/g, '$1. ')`. -/
def periodAfterInitial (l : List Char) : List Char :=
  periodAfterInitialAux false false l

/-- JS `word.charAt(0).toUpperCase() + word.slice(1).toLowerCase()`
(the per-word map of the `part_004` `cleanAuthorName`). -/
def capWordLower : List Char → List Char
  | [] => []
  | c :: cs => c.toUpper :: cs.map Char.toLower

/-- `cleanAuthorName` of `src/unnamed/part_004` (lines 78–90): trim,
strip leading `by `, add a period after a bare initial, collapse
whitespace, title-case each word, join, trim. -/
def cleanAuthorNameV2 (author : String) : String :=
  ⟨trimCL (joinChar ' '
    ((splitChar ' ' (collapseWs (periodAfterInitial
      (stripLeadingBy (trimCL author.data))))).map capWordLower))⟩

/-- Minor-word list of `toTitleCase` in `src/main.ts` (lines 60–64). -/
def minorWordsMain : List (List Char) :=
  ["a", "an", "and", "as", "at", "but", "by", "for",
   "if", "in", "nor", "of", "on", "or", "so", "the",
   "to", "yet"].map String.data

/-- Apostrophe and double-quote characters, written via their code
points. -/
def aposChar : Char := Char.ofNat 39

/-- Punctuation that makes `toTitleCase` capitalize the next word
(`src/main.ts` line 65). -/
def punctuationTriggers : List Char :=
  [':', '(', '[', '{', Char.ofNat 34, aposChar, '—', '–']

/-- Leading punctuation stripped for the minor-word check
(`src/main.ts` line 83, regex `^([(\[{"']*)(.*)$`). -/
def leadingPunctChars : List Char :=
  ['(', '[', '{', Char.ofNat 34, aposChar]

/-- JS `word.charAt(0).toUpperCase() + word.slice(1)`. -/
def capFirst : List Char → List Char
  | [] => []
  | c :: cs => c.toUpper :: cs

/-- Last character of a word, `word.slice(-1)`, tested against
`punctuationTriggers`; the empty string is in no set. -/
def lastIsTrigger (w : List Char) : Bool :=
  match w.getLast? with
  | some c => punctuationTriggers.contains c
  | none => false

/-- The word loop of `toTitleCase` in `src/main.ts` (lines 71–99).
`prev` is the previous (lower-cased, untransformed) word — the loop
reads `words[i-1]` — and `capNext` is the `capitalizeNext` flag left
by the previous iteration. -/
def titleLoop : List (List Char) → Option (List Char) → Bool → List (List Char)
  | [], _, _ => []
  | w :: ws, prev, capNext =>
    let capNext1 :=
      match prev with
      | some p => if lastIsTrigger p then true else capNext
      | none => capNext
    let lead := w.takeWhile (fun c => leadingPunctChars.contains c)
    let rest := w.dropWhile (fun c => leadingPunctChars.contains c)
    let rest1 :=
      if capNext1 || !(minorWordsMain.contains rest) then capFirst rest else rest
    let w1 := lead ++ rest1
    w1 :: titleLoop ws (some w) (lastIsTrigger w1)

/-- `toTitleCase` of `src/main.ts` (lines 59–102): lower-case, split
on whitespace, run the capitalization loop, join with single
spaces. -/
def toTitleCase (text : String) : String :=
  ⟨joinChar ' ' (titleLoop (splitWs (lowerCL text.data)) none true)⟩

/-- Minor-word list of `toTitleCase` in `src/unnamed/part_002`
(line 59); it additionally contains `up`. -/
def minorWordsSimple : List (List Char) :=
  ["a", "an", "and", "as", "at", "but", "by", "for", "if", "in",
   "nor", "of", "on", "or", "so", "the", "to", "up", "yet"].map String.data

/-- Indexed map used to mirror `Array.prototype.map((word, index) => …)`. -/
def mapIdxCL (f : Nat → List Char → List Char) : Nat → List (List Char) → List (List Char)
  | _, [] => []
  | i, w :: ws => f i w :: mapIdxCL f (i + 1) ws

/-- `toTitleCase` of `src/unnamed/part_002` (lines 58–66): lower-case,
split on single spaces, capitalize a word iff it is first or not a
minor word, join. -/
def toTitleCaseSimple (text : String) : String :=
  ⟨joinChar ' '
    (mapIdxCL
      (fun i w => if i = 0 || !(minorWordsSimple.contains w) then capFirst w else w)
      0 (splitChar ' ' (lowerCL text.data)))⟩

/-- `getBasicTitle` of `src/main.ts` (lines 112–114):
`title.split(':')[0].trim()`. -/
def getBasicTitle (title : String) : String :=
  ⟨trimCL (title.data.takeWhile (fun c => c ≠ ':'))⟩

/-- Locate the first `://` in a URL and return what follows it;
`none` when absent. -/
def afterSchemeSep : List Char → Option (List Char)
  | [] => none
  | c :: cs =>
    if List.isPrefixOf [':', '/', '/'] (c :: cs) then some cs.tail.tail
    else afterSchemeSep cs

/-- Fragment of the platform URL parser (`new URL(url)` in
`standardizeTwitterUrl`), modelled for `scheme://host/path?query#frag`
shaped URLs, returning the `pathname`; `none` models the constructor
throwing, which the source catches by returning the input unchanged.
(For a URL with no path the JS `pathname` is `"/"`; we return `""`,
which is indistinguishable after the `split('/').filter(Boolean)`
step that consumes it.) -/
def urlPathname (l : List Char) : Option (List Char) :=
  match afterSchemeSep l with
  | none => none
  | some rest =>
    let host := rest.takeWhile (fun c => c ≠ '/' && c ≠ '?' && c ≠ '#')
    if host.isEmpty then none
    else some ((rest.drop host.length).takeWhile (fun c => c ≠ '?' && c ≠ '#'))

/-- JS `url.match(/^@?[a-zA-Z0-9_]+$/)` as a Boolean: an optional
leading `@` followed by at least one word character. -/
def matchesBareHandle (l : List Char) : Bool :=
  match l with
  | '@' :: rest => !rest.isEmpty && rest.all isWordChar
  | _ => !l.isEmpty && l.all isWordChar

/-- JS `url.replace('@', '')`: removes only the first occurrence. -/
def removeFirstAt : List Char → List Char
  | [] => []
  | c :: cs => if c = '@' then cs else c :: removeFirstAt cs

/-- Try to read `host` (already lower-case, ending in `/`) at the head
of `l` case-insensitively, and grab the following run of word
characters; fails when the run is empty (the regex needs `+`). -/
def handleAfterHost (host l : List Char) : Option (List Char) :=
  if host.isPrefixOf (lowerCL l) then
    let h := (l.drop host.length).takeWhile isWordChar
    if h.isEmpty then none else some h
  else none

/-- JS `url.match(/(?:twitter\.com|x\.com)\/([a-zA-Z0-9_]+)/i)`:
scan left to right; at each position try `twitter.com/` then
`x.com/`, then capture the maximal word-character run. -/
def findTwitterHandle : List Char → Option (List Char)
  | [] => none
  | c :: cs =>
    match handleAfterHost "twitter.com/".data (c :: cs) with
    | some h => some h
    | none =>
      match handleAfterHost "x.com/".data (c :: cs) with
      | some h => some h
      | none => findTwitterHandle cs

/-- The two fallbacks of `standardizeTwitterUrl` after the
full-URL branch (`src/main.ts` lines 135–147): bare username, then
`twitter.com/username` extraction, else unchanged. -/
def twitterFallback (url : String) : String :=
  if matchesBareHandle url.data then "https://x.com/" ++ ⟨removeFirstAt url.data⟩
  else
    match findTwitterHandle url.data with
    | some h => "https://x.com/" ++ (⟨h⟩ : String)
    | none => url

/-- Body shared by `standardizeTwitterUrl` (`src/main.ts` lines
116–153, identically in `src/unnamed/part_021`) and
`sanitizeTwitterUrl` (`src/unnamed/part_007` lines 36–75) after their
falsy-input guards: inputs that do not contain `twitter.com` or
`x.com` (case-insensitively) are returned unchanged; a `http…` input
is parsed as a URL (a parse failure is caught and the input returned
unchanged) and its first path segment becomes the canonical handle;
otherwise the bare-handle and host-regex fallbacks run. -/
def twitterCore (url : String) : String :=
  if !(containsSub "twitter.com".data (lowerCL url.data))
      && !(containsSub "x.com".data (lowerCL url.data)) then url
  else if List.isPrefixOf "http".data url.data then
    match urlPathname url.data with
    | none => url
    | some path =>
      match (splitChar '/' path).filter (fun p => !p.isEmpty) with
      | p :: _ => "https://x.com/" ++ (⟨p⟩ : String)
      | [] => twitterFallback url
  else twitterFallback url

/-- `standardizeTwitterUrl` of `src/main.ts` (lines 116–153). -/
def standardizeTwitterUrl (url : String) : String :=
  if url = "" then "" else twitterCore url

/-- `sanitizeTwitterUrl` of `src/unnamed/part_007` (lines 36–75): the
same logic over a nullable input (`if (!url) return null`). -/
def sanitizeTwitterUrl : Option String → Option String
  | none => none
  | some url => if url = "" then none else some (twitterCore url)

/-- `STANDARD_GENRES` of `src/src/utils/genre-and-description.ts`
(lines 10–15). -/
def STANDARD_GENRES : List String :=
  ["Fiction", "Historical", "Classic", "Nonfiction", "Economics", "Politics",
   "Science Fiction", "Fantasy", "Mystery", "Horror", "Romance", "History",
   "Biography", "Memoir", "Self-Help", "Business", "Science", "Philosophy",
   "Poetry", "Young Adult", "Children", "Misc"]

/-- The controlled-vocabulary post-processing of
`generateGenreAndDescription` in
`src/src/utils/genre-and-description.ts` (lines 30–38): keep only
genres in `STANDARD_GENRES`, and substitute `["Misc"]` when nothing
remains. -/
def standardizeGenres (gs : List String) : List String :=
  let fil := gs.filter (fun g => STANDARD_GENRES.contains g)
  if fil.isEmpty then ["Misc"] else fil

/-- The structured output of the `genre-and-description-0680` LLM
invocation (`z.object({genre: z.array(z.string()), description:
z.string()})`). -/
structure GenreDescription where
  genre : List String
  description : String
deriving DecidableEq

/-- `generateGenreAndDescription` of `src/main.ts` (lines 537–548)
applied to the raw LLM result: it returns the invocation result
unchanged — no genre filtering happens in this version. -/
def generateGenreAndDescriptionMain (raw : GenreDescription) : GenreDescription :=
  raw

/-- `generateGenreAndDescription` of
`src/src/utils/genre-and-description.ts` (lines 19–44) applied to the
raw LLM result: filter to the controlled vocabulary, falling back to
`["Misc"]`. -/
def generateGenreAndDescriptionUtil (raw : GenreDescription) : GenreDescription :=
  { genre := standardizeGenres raw.genre, description := raw.description }

/-- A row of the `books` table (columns the scraper reads/writes;
timestamps and embedding vectors omitted — nothing reads them). -/
structure BookRow where
  id : String
  title : String
  author : String
  genre : List String
  description : String
  amazon_url : Option String
deriving DecidableEq

/-- A row of the `people` table. -/
structure PersonRow where
  id : String
  full_name : String
  url : Option String
  type : String
deriving DecidableEq

/-- A row of the `recommendations` table. -/
structure RecommendationRow where
  id : String
  book_id : String
  person_id : String
  source : String
  source_link : String
deriving DecidableEq

/-- PostgREST `.single()` over the rows selected by the `.eq` filters:
the row when exactly one matches, otherwise the `PGRST116` error —
which every call site in the source treats as "not found" and maps to
`none`. -/
def singleRow {α : Type} : List α → Option α
  | [x] => some x
  | _ => none

/-- A candidate row returned by the `find_similar_books` /
`get_best_matching_book` RPCs (ranked best-first by the database). -/
structure SimilarBook where
  id : String
  title : String
  author : String
  title_similarity : ℚ
  author_similarity : ℚ
deriving DecidableEq

/-- Result of one `findOrCreateBook` call: the returned id, the
`books` table afterwards, and whether the fuzzy-similarity RPC was
invoked. -/
structure BookResolution where
  id : String
  books : List BookRow
  fuzzyCalled : Bool
deriving DecidableEq

/-- `findOrCreateBook` of `src/main.ts` (lines 431–501).

* `findSimilar` is the `find_similar_books` RPC, called (when
  reached) with the basic title and the cleaned author;
* `llm` is the raw result of the `generateGenreAndDescription`
  invocation defined in the same file — which performs no genre
  filtering;
* `amazonUrl` is the result of the `findAmazonUrl` browser flow;
* `freshId` is the `uuidv4()` value. -/
def findOrCreateBook (books : List BookRow) (title author : String)
    (findSimilar : String → String → List SimilarBook)
    (llm : GenreDescription) (amazonUrl : Option String)
    (freshId : String) : BookResolution :=
  let t := toTitleCase (jsTrim title)
  let a := cleanAuthorName author
  match singleRow (books.filter (fun b => b.title == t && b.author == a)) with
  | some exactMatch => { id := exactMatch.id, books := books, fuzzyCalled := false }
  | none =>
    match findSimilar (getBasicTitle (jsTrim title)) a with
    | similarBook :: _ =>
      { id := similarBook.id, books := books, fuzzyCalled := true }
    | [] =>
      let enriched := generateGenreAndDescriptionMain llm
      { id := freshId,
        books := books ++ [{ id := freshId, title := t, author := a,
                             genre := enriched.genre,
                             description := enriched.description,
                             amazon_url := amazonUrl }],
        fuzzyCalled := true }

/-- `findOrCreateBook` of `src/unnamed/part_001` (lines 266–386), the
later script generation: the exact-match tier compares the raw title
and author, the fuzzy tier is the embedding RPC
`get_best_matching_book`, and creation uses the **filtering**
`generateGenreAndDescription` imported from
`src/src/utils/genre-and-description.ts`.  `embedsOk = false` models
`createBookEmbeddings` returning nothing, on which the source throws
(`none`); embedding vector columns themselves are omitted. -/
def findOrCreateBookV2 (books : List BookRow) (title author : String)
    (embedsOk : Bool) (bestMatching : List SimilarBook)
    (llm : GenreDescription) (amazonUrl : Option String)
    (freshId : String) : Option BookResolution :=
  match singleRow (books.filter (fun b => b.title == title && b.author == author)) with
  | some exactMatch => some { id := exactMatch.id, books := books, fuzzyCalled := false }
  | none =>
    if !embedsOk then none
    else
      match bestMatching with
      | similarBook :: _ =>
        some { id := similarBook.id, books := books, fuzzyCalled := true }
      | [] =>
        let enriched := generateGenreAndDescriptionUtil llm
        some { id := freshId,
               books := books ++ [{ id := freshId, title := title, author := author,
                                    genre := enriched.genre,
                                    description := enriched.description,
                                    amazon_url := amazonUrl }],
               fuzzyCalled := true }

/-- Result of one `findOrCreatePerson` call. -/
structure PersonResolution where
  id : String
  people : List PersonRow
deriving DecidableEq

/-- `findOrCreatePerson` of `src/main.ts` (lines 324–380).

* the lookup filters on exact `full_name` equality only;
* on a hit, when a non-empty `url` differing from the stored one was
  passed, the row's `url` is updated to its standardized form;
* on a miss, `personType` (the `categorizePerson` LLM result) and
  `freshId` (`uuidv4()`) feed a fresh insert, whose `url` is the
  standardized input url, or null for a null/empty input
  (`url ? standardizeTwitterUrl(url) : null`). -/
def findOrCreatePerson (people : List PersonRow) (personName : String)
    (url : Option String) (personType : String)
    (freshId : String) : PersonResolution :=
  match singleRow (people.filter (fun p => p.full_name == personName)) with
  | some existingPerson =>
    match url with
    | some u =>
      if u ≠ "" && existingPerson.url ≠ some u then
        { id := existingPerson.id,
          people := people.map (fun p =>
            if p.id == existingPerson.id
            then { p with url := some (standardizeTwitterUrl u) } else p) }
      else { id := existingPerson.id, people := people }
    | none => { id := existingPerson.id, people := people }
  | none =>
    let standardizedUrl : Option String :=
      match url with
      | some u => if u = "" then none else some (standardizeTwitterUrl u)
      | none => none
    { id := freshId,
      people := people ++ [{ id := freshId, full_name := personName,
                             url := standardizedUrl, type := personType }] }

/-- `createRecommendation` of `src/main.ts` (lines 503–535): the
existence check filters on `book_id` and `person_id` only; on a miss
a fresh row carrying `source` and `sourceLink` is inserted. -/
def createRecommendation (recs : List RecommendationRow)
    (bookId personId source sourceLink freshId : String) : List RecommendationRow :=
  match singleRow (recs.filter (fun r => r.book_id == bookId && r.person_id == personId)) with
  | some _ => recs
  | none =>
    recs ++ [{ id := freshId, book_id := bookId, person_id := personId,
               source := source, source_link := sourceLink }]

/-! ## Helper lemmas -/

theorem singleRow_eq_some {α : Type} {l : List α} {x : α}
    (h : singleRow l = some x) : l = [x] := by
  match l with
  | [] => simp [singleRow] at h
  | [a] => simp [singleRow] at h; simp [h]
  | a :: b :: t => simp [singleRow] at h

/-! ## Claim theorems -/

/-- C1.  For every (title, author) pair for which the store already
contains the Book row whose title is the normalized title and whose
author is the cleaned author (unique, per the data-model invariant of
at most one row per normalized pair), `findOrCreateBook` returns that
row's id, does not call `find_similar_books`, and inserts no row. -/
theorem findOrCreateBook_exact_hit
    (books : List BookRow) (title author : String)
    (findSimilar : String → String → List SimilarBook)
    (llm : GenreDescription) (amazonUrl : Option String) (freshId : String)
    (b : BookRow)
    (h : books.filter (fun r =>
          r.title == toTitleCase (jsTrim title)
          && r.author == cleanAuthorName author) = [b]) :
    (findOrCreateBook books title author findSimilar llm amazonUrl freshId).id = b.id
    ∧ (findOrCreateBook books title author findSimilar llm amazonUrl freshId).books = books
    ∧ (findOrCreateBook books title author findSimilar llm amazonUrl freshId).fuzzyCalled = false := by
  simp only [findOrCreateBook]
  rw [h]
  simp [singleRow]

/-- Witness for C1: a store holding "Dune" / "Frank Herbert"; the
scraped pair normalizes onto it and is resolved by the exact tier. -/
theorem findOrCreateBook_exact_hit_witness :
    (findOrCreateBook
      [{ id := "B1", title := "Dune", author := "Frank Herbert",
         genre := ["Fiction"], description := "d", amazon_url := none }]
      "dune " "by Frank Herbert" (fun _ _ => [])
      ⟨["Fiction"], "x"⟩ none "B2").id = "B1"
    ∧ (findOrCreateBook
      [{ id := "B1", title := "Dune", author := "Frank Herbert",
         genre := ["Fiction"], description := "d", amazon_url := none }]
      "dune " "by Frank Herbert" (fun _ _ => [])
      ⟨["Fiction"], "x"⟩ none "B2").books
      = [{ id := "B1", title := "Dune", author := "Frank Herbert",
           genre := ["Fiction"], description := "d", amazon_url := none }]
    ∧ (findOrCreateBook
      [{ id := "B1", title := "Dune", author := "Frank Herbert",
         genre := ["Fiction"], description := "d", amazon_url := none }]
      "dune " "by Frank Herbert" (fun _ _ => [])
      ⟨["Fiction"], "x"⟩ none "B2").fuzzyCalled = false :=
  findOrCreateBook_exact_hit
    [{ id := "B1", title := "Dune", author := "Frank Herbert",
       genre := ["Fiction"], description := "d", amazon_url := none }]
    "dune " "by Frank Herbert" (fun _ _ => []) ⟨["Fiction"], "x"⟩ none "B2"
    { id := "B1", title := "Dune", author := "Frank Herbert",
      genre := ["Fiction"], description := "d", amazon_url := none }
    (by decide)

/-- C2.  With no exact match, a non-empty `find_similar_books` result
makes `findOrCreateBook` return the first (top-ranked) candidate's id
— whatever its similarity scores, i.e. with no threshold — and insert
nothing; and a row is inserted exactly when both tiers return
nothing. -/
theorem findOrCreateBook_fuzzy_tier
    (books : List BookRow) (title author : String)
    (findSimilar : String → String → List SimilarBook)
    (llm : GenreDescription) (amazonUrl : Option String) (freshId : String)
    (hexact : books.filter (fun r =>
          r.title == toTitleCase (jsTrim title)
          && r.author == cleanAuthorName author) = []) :
    (∀ s rest, findSimilar (getBasicTitle (jsTrim title)) (cleanAuthorName author) = s :: rest →
      (findOrCreateBook books title author findSimilar llm amazonUrl freshId).id = s.id
      ∧ (findOrCreateBook books title author findSimilar llm amazonUrl freshId).books = books)
    ∧ (findSimilar (getBasicTitle (jsTrim title)) (cleanAuthorName author) = [] →
      (findOrCreateBook books title author findSimilar llm amazonUrl freshId).books
        = books ++ [{ id := freshId,
                      title := toTitleCase (jsTrim title),
                      author := cleanAuthorName author,
                      genre := llm.genre, description := llm.description,
                      amazon_url := amazonUrl }]
      ∧ (findOrCreateBook books title author findSimilar llm amazonUrl freshId).id = freshId) := by
  constructor
  · intro s rest hs
    simp only [findOrCreateBook]
    rw [hexact, hs]
    simp [singleRow]
  · intro hs
    simp only [findOrCreateBook]
    rw [hexact, hs]
    simp [singleRow, generateGenreAndDescriptionMain]

/-- Witness for C2: an empty store; the fuzzy tier returns one
candidate with low similarity scores, whose id is returned with no
insertion. -/
theorem findOrCreateBook_fuzzy_tier_witness :
    (findOrCreateBook [] "Dune" "Frank Herbert"
      (fun _ _ => [⟨"B7", "Dune: Book One", "Frank Herbert", 1/10, 1/10⟩])
      ⟨["Fiction"], "x"⟩ none "B2").id = "B7"
    ∧ (findOrCreateBook [] "Dune" "Frank Herbert"
      (fun _ _ => [⟨"B7", "Dune: Book One", "Frank Herbert", 1/10, 1/10⟩])
      ⟨["Fiction"], "x"⟩ none "B2").books = [] :=
  (findOrCreateBook_fuzzy_tier [] "Dune" "Frank Herbert"
      (fun _ _ => [⟨"B7", "Dune: Book One", "Frank Herbert", 1/10, 1/10⟩])
      ⟨["Fiction"], "x"⟩ none "B2" (by decide)).1
    ⟨"B7", "Dune: Book One", "Frank Herbert", 1/10, 1/10⟩ [] rfl

/-- C5.  Starting from a store with no Recommendation row for the
(book, person) key, two sequential `createRecommendation` calls with
the same arguments leave exactly one row for that key: the second
call finds the row the first inserted and inserts nothing. -/
theorem createRecommendation_sequential_idempotent
    (recs : List RecommendationRow) (bookId personId source sourceLink id1 id2 : String)
    (h : recs.filter (fun r => r.book_id == bookId && r.person_id == personId) = []) :
    createRecommendation
        (createRecommendation recs bookId personId source sourceLink id1)
        bookId personId source sourceLink id2
      = createRecommendation recs bookId personId source sourceLink id1
    ∧ ((createRecommendation recs bookId personId source sourceLink id1).filter
        (fun r => r.book_id == bookId && r.person_id == personId)).length = 1 := by
  have h1 : createRecommendation recs bookId personId source sourceLink id1
      = recs ++ [{ id := id1, book_id := bookId, person_id := personId,
                   source := source, source_link := sourceLink }] := by
    simp only [createRecommendation]
    rw [h]
    simp [singleRow]
  have h2 : List.filter (fun r => r.book_id == bookId && r.person_id == personId)
      (recs ++ [({ id := id1, book_id := bookId, person_id := personId,
                   source := source, source_link := sourceLink } : RecommendationRow)])
      = [{ id := id1, book_id := bookId, person_id := personId,
           source := source, source_link := sourceLink }] := by
    rw [List.filter_append, h]
    simp
  refine ⟨?_, ?_⟩
  · rw [h1]
    simp only [createRecommendation]
    rw [h2]
    simp [singleRow]
  · rw [h1, h2]
    rfl

/-- Witness for C5: inserting the same edge twice into an empty store
leaves exactly that one row. -/
theorem createRecommendation_sequential_idempotent_witness :
    createRecommendation
        (createRecommendation [] "B1" "P1" "Example Blog" "https://example.com" "R1")
        "B1" "P1" "Example Blog" "https://example.com" "R2"
      = createRecommendation [] "B1" "P1" "Example Blog" "https://example.com" "R1"
    ∧ ((createRecommendation [] "B1" "P1" "Example Blog" "https://example.com" "R1").filter
        (fun r => r.book_id == "B1" && r.person_id == "P1")).length = 1 :=
  createRecommendation_sequential_idempotent [] "B1" "P1" "Example Blog"
    "https://example.com" "R1" "R2" (by decide)

/-- C10.  `createRecommendation`'s existence check matches on
(book_id, person_id) only: when a row for that pair already exists (a
unique one, as the check-then-insert discipline maintains), a call
with a different source and link inserts nothing — the new source is
dropped — and the number of rows per (book, person) pair never grows
beyond one. -/
theorem createRecommendation_ignores_source
    (recs : List RecommendationRow) (bookId personId : String) :
    (∀ r, recs.filter (fun x => x.book_id == bookId && x.person_id == personId) = [r] →
      ∀ source2 link2 id2,
        createRecommendation recs bookId personId source2 link2 id2 = recs)
    ∧ (∀ source link freshId,
        (recs.filter (fun x => x.book_id == bookId && x.person_id == personId)).length ≤ 1 →
        ((createRecommendation recs bookId personId source link freshId).filter
          (fun x => x.book_id == bookId && x.person_id == personId)).length ≤ 1) := by
  constructor
  · intro r hr source2 link2 id2
    simp only [createRecommendation]
    rw [hr]
    simp [singleRow]
  · intro source link freshId hlen
    simp only [createRecommendation]
    rcases hf : recs.filter (fun x => x.book_id == bookId && x.person_id == personId) with
      _ | ⟨a, _ | ⟨b, t⟩⟩
    · simp [singleRow, List.filter_append, hf]
    · rw [hf]
      simp [singleRow]
      rw [hf]
      simp
    · rw [hf] at hlen
      simp at hlen

/-- C6.  Person lookup is by exact `full_name` equality only: when the
store has the (unique) row with exactly the queried full name,
`findOrCreatePerson` returns that row's id and inserts nothing — at
most the row's `url` field changes — and in general the returned id
is either the fresh id of a newly inserted row or the id of a row
whose `full_name` is exactly the queried name, so differing spellings
never resolve to one row. -/
theorem findOrCreatePerson_exact_only
    (people : List PersonRow) (personName : String) (url : Option String)
    (personType freshId : String) :
    (∀ p, people.filter (fun q => q.full_name == personName) = [p] →
      (findOrCreatePerson people personName url personType freshId).id = p.id
      ∧ (findOrCreatePerson people personName url personType freshId).people.map
          (fun q => (q.id, q.full_name, q.type))
        = people.map (fun q => (q.id, q.full_name, q.type)))
    ∧ ((findOrCreatePerson people personName url personType freshId).id = freshId
      ∨ ∃ p ∈ people, p.full_name = personName
          ∧ (findOrCreatePerson people personName url personType freshId).id = p.id) := by
  constructor
  · intro p hp
    simp only [findOrCreatePerson]
    rw [hp]
    simp only [singleRow]
    rcases url with _ | u
    · exact ⟨rfl, rfl⟩
    · dsimp only
      by_cases hcond : (decide (u ≠ "") && decide (p.url ≠ some u)) = true
      · rw [if_pos hcond]
        refine ⟨rfl, ?_⟩
        simp only [List.map_map]
        apply List.map_congr_left
        intro q _
        by_cases hq : q.id = p.id
        · simp [hq]
        · simp [hq]
      · rw [if_neg hcond]
        exact ⟨rfl, rfl⟩
  · simp only [findOrCreatePerson]
    rcases hs : singleRow (people.filter (fun q => q.full_name == personName)) with _ | p
    · rw [hs]
      exact Or.inl rfl
    · rw [hs]
      right
      have hp : people.filter (fun q => q.full_name == personName) = [p] :=
        singleRow_eq_some hs
      have hmem : p ∈ people.filter (fun q => q.full_name == personName) := by
        rw [hp]; exact List.mem_singleton.mpr rfl
      have hbeq : (p.full_name == personName) = true :=
        @List.of_mem_filter PersonRow (fun q => q.full_name == personName) p people hmem
      refine ⟨p, (List.mem_filter.mp hmem).1, beq_iff_eq.mp hbeq, ?_⟩
      rcases url with _ | u
      · rfl
      · dsimp only
        by_cases hcond : (decide (u ≠ "") && decide (p.url ≠ some u)) = true
        · rw [if_pos hcond]
        · rw [if_neg hcond]

/-- Witness for C6: a store holding "Jane Critic"; the lookup hit
returns her id, and a freshly discovered social URL only updates the
`url` field. -/
theorem findOrCreatePerson_exact_only_witness :
    (findOrCreatePerson
      [{ id := "P1", full_name := "Jane Critic", url := none, type := "Journalist" }]
      "Jane Critic" (some "https://twitter.com/jane") "Critic" "P2").id = "P1"
    ∧ (findOrCreatePerson
      [{ id := "P1", full_name := "Jane Critic", url := none, type := "Journalist" }]
      "Jane Critic" (some "https://twitter.com/jane") "Critic" "P2").people.map
        (fun q => (q.id, q.full_name, q.type))
      = [("P1", "Jane Critic", "Journalist")] :=
  (findOrCreatePerson_exact_only
      [{ id := "P1", full_name := "Jane Critic", url := none, type := "Journalist" }]
      "Jane Critic" (some "https://twitter.com/jane") "Critic" "P2").1
    { id := "P1", full_name := "Jane Critic", url := none, type := "Journalist" }
    (by decide)

/-- The controlled-vocabulary post-processing always yields a
non-empty list drawn from `STANDARD_GENRES` (helper shared by the
genre claims). -/
theorem standardizeGenres_sound (gs : List String) :
    standardizeGenres gs ≠ []
    ∧ ∀ g ∈ standardizeGenres gs, g ∈ STANDARD_GENRES := by
  simp only [standardizeGenres]
  rcases hf : gs.filter (fun g => STANDARD_GENRES.contains g) with _ | ⟨a, t⟩
  · decide
  · simp only [List.isEmpty_cons, Bool.false_eq_true, if_false]
    refine ⟨by simp, ?_⟩
    intro g hg
    have hmem2 : g ∈ gs.filter (fun g => STANDARD_GENRES.contains g) := by
      rw [hf]; exact hg
    have hpg : (STANDARD_GENRES.contains g) = true := List.of_mem_filter hmem2
    exact List.elem_iff.mp hpg

/-- C7.  The genre post-processing (filter to `STANDARD_GENRES`, then
substitute `["Misc"]` if empty) is idempotent, and an input that is
empty or holds only unrecognized values yields exactly `["Misc"]`. -/
theorem standardizeGenres_idempotent
    : (∀ gs : List String, standardizeGenres (standardizeGenres gs) = standardizeGenres gs)
    ∧ (∀ gs : List String, (∀ g ∈ gs, g ∉ STANDARD_GENRES) → standardizeGenres gs = ["Misc"]) := by
  constructor
  · intro gs
    by_cases hf : gs.filter (fun g => STANDARD_GENRES.contains g) = []
    · have h1 : standardizeGenres gs = ["Misc"] := by
        simp only [standardizeGenres]
        rw [hf]
        rfl
      rw [h1]
      decide
    · have h1 : standardizeGenres gs = gs.filter (fun g => STANDARD_GENRES.contains g) := by
        simp only [standardizeGenres]
        rcases hc : gs.filter (fun g => STANDARD_GENRES.contains g) with _ | ⟨a, t⟩
        · exact absurd hc hf
        · simp
      rw [h1]
      simp only [standardizeGenres]
      have h2 : (gs.filter (fun g => STANDARD_GENRES.contains g)).filter
          (fun g => STANDARD_GENRES.contains g)
          = gs.filter (fun g => STANDARD_GENRES.contains g) := by
        apply List.filter_eq_self.mpr
        intro a ha
        exact List.of_mem_filter ha
      rw [h2]
      rcases hc : gs.filter (fun g => STANDARD_GENRES.contains g) with _ | ⟨a, t⟩
      · exact absurd hc hf
      · simp
  · intro gs h
    have hf : gs.filter (fun g => STANDARD_GENRES.contains g) = [] := by
      apply List.filter_eq_nil_iff.mpr
      intro a ha
      simp only [Bool.not_eq_true]
      rcases hcon : STANDARD_GENRES.contains a with _ | _
      · rfl
      · exact absurd (List.elem_iff.mp hcon) (h a ha)
    simp only [standardizeGenres]
    rw [hf]
    rfl

/-- Witness for C7: a fully-unrecognized genre list collapses to
`["Misc"]`. -/
theorem standardizeGenres_idempotent_witness :
    standardizeGenres ["Cooking", "Sci-Fi"] = ["Misc"] :=
  standardizeGenres_idempotent.2 ["Cooking", "Sci-Fi"] (by decide)

/-- C3 counterexample.  `findOrCreateBook` in `src/main.ts` calls the
file's own `generateGenreAndDescription`, which does not filter: an
LLM result with the out-of-vocabulary genre "Cooking" is inserted
verbatim, so the inserted row's genre list is not contained in
`STANDARD_GENRES`. -/
theorem findOrCreateBook_inserts_unfiltered_genre :
    (findOrCreateBook [] "Dune" "Frank Herbert" (fun _ _ => [])
      ⟨["Cooking"], "d"⟩ none "B1").books
      = [{ id := "B1", title := "Dune", author := "Frank Herbert",
           genre := ["Cooking"], description := "d", amazon_url := none }]
    ∧ "Cooking" ∉ STANDARD_GENRES := by
  constructor
  · decide
  · decide

/-- C3 amended.  The filtering `generateGenreAndDescription` of
`src/src/utils/genre-and-description.ts` always produces a non-empty
genre list inside `STANDARD_GENRES` ("Misc" when nothing survives),
and the later-generation resolver (`src/unnamed/part_001`), which
calls it, only ever inserts rows with such genre lists; the
`src/main.ts` resolver inserts the raw LLM genre list unchanged. -/
theorem genre_vocabulary_enforced_by_util
    : (∀ raw : GenreDescription,
        (generateGenreAndDescriptionUtil raw).genre ≠ []
        ∧ ∀ g ∈ (generateGenreAndDescriptionUtil raw).genre, g ∈ STANDARD_GENRES)
    ∧ (∀ (books : List BookRow) (title author : String) (embedsOk : Bool)
         (bestMatching : List SimilarBook) (llm : GenreDescription)
         (amazonUrl : Option String) (freshId : String) (res : BookResolution),
        findOrCreateBookV2 books title author embedsOk bestMatching llm amazonUrl freshId
          = some res →
        res.books = books
        ∨ ∃ row, res.books = books ++ [row] ∧ row.genre ≠ []
            ∧ ∀ g ∈ row.genre, g ∈ STANDARD_GENRES) := by
  constructor
  · intro raw
    exact standardizeGenres_sound raw.genre
  · intro books title author embedsOk bestMatching llm amazonUrl freshId res hres
    simp only [findOrCreateBookV2] at hres
    rcases hs : singleRow (books.filter (fun b => b.title == title && b.author == author)) with
      _ | exactMatch
    · rw [hs] at hres
      rcases hok : embedsOk with _ | _
      · rw [hok] at hres
        simp at hres
      · rw [hok] at hres
        simp only [Bool.not_true, Bool.false_eq_true, if_false] at hres
        rcases hb : bestMatching with _ | ⟨s, rest⟩
        · rw [hb] at hres
          simp only [Option.some.injEq] at hres
          right
          refine ⟨{ id := freshId, title := title, author := author,
                    genre := (generateGenreAndDescriptionUtil llm).genre,
                    description := (generateGenreAndDescriptionUtil llm).description,
                    amazon_url := amazonUrl }, ?_, ?_, ?_⟩
          · rw [← hres]
          · exact (standardizeGenres_sound llm.genre).1
          · exact (standardizeGenres_sound llm.genre).2
        · rw [hb] at hres
          simp only [Option.some.injEq] at hres
          left
          rw [← hres]
    · rw [hs] at hres
      simp only [Option.some.injEq] at hres
      left
      rw [← hres]

/-- Witness for C3 amended: on an empty store with raw LLM genre
`["Cooking"]`, the later resolver inserts exactly one row whose genre
is `["Misc"]`, i.e. non-empty and inside the vocabulary. -/
theorem genre_vocabulary_enforced_by_util_witness :
    (⟨"B1", [⟨"B1", "Dune", "Frank Herbert", ["Misc"], "d", none⟩], true⟩
        : BookResolution).books = ([] : List BookRow)
    ∨ ∃ row, (⟨"B1", [⟨"B1", "Dune", "Frank Herbert", ["Misc"], "d", none⟩], true⟩
        : BookResolution).books = [] ++ [row] ∧ row.genre ≠ []
        ∧ ∀ g ∈ row.genre, g ∈ STANDARD_GENRES :=
  genre_vocabulary_enforced_by_util.2 [] "Dune" "Frank Herbert" true []
    ⟨["Cooking"], "d"⟩ none "B1"
    ⟨"B1", [⟨"B1", "Dune", "Frank Herbert", ["Misc"], "d", none⟩], true⟩
    (by decide)

/-- C4 counterexample.  A bare handle never reaches the `@username`
branch: the early guard returns any input not containing
`twitter.com` or `x.com` unchanged, so `standardizeTwitterUrl "@jdoe"`
is `"@jdoe"`, not `"https://x.com/jdoe"`. -/
theorem standardizeTwitterUrl_bare_handle_unchanged :
    standardizeTwitterUrl "@jdoe" = "@jdoe"
    ∧ ("@jdoe" : String) ≠ "https://x.com/jdoe"
    ∧ sanitizeTwitterUrl (some "@jdoe") = some "@jdoe" := by
  refine ⟨by decide, by decide, by decide⟩

/-- C4 amended.  The two URL forms canonicalize to
`https://x.com/jdoe`; the bare handle `@jdoe` is returned unchanged
(the guard only lets strings containing `twitter.com` or `x.com`
through); and any input containing neither marker is returned
unchanged. -/
theorem standardizeTwitterUrl_canonical :
    standardizeTwitterUrl "https://twitter.com/jdoe" = "https://x.com/jdoe"
    ∧ standardizeTwitterUrl "https://x.com/jdoe?x=1" = "https://x.com/jdoe"
    ∧ standardizeTwitterUrl "@jdoe" = "@jdoe"
    ∧ sanitizeTwitterUrl (some "https://twitter.com/jdoe") = some "https://x.com/jdoe"
    ∧ ∀ url : String,
        containsSub "twitter.com".data (lowerCL url.data) = false →
        containsSub "x.com".data (lowerCL url.data) = false →
        standardizeTwitterUrl url = url := by
  refine ⟨by decide, by decide, by decide, by decide, ?_⟩
  intro url h1 h2
  simp only [standardizeTwitterUrl, twitterCore]
  by_cases he : url = ""
  · rw [if_pos he, he]
  · rw [if_neg he, h1, h2]
    simp

/-- Witness for C4: a non-Twitter URL passes through unchanged. -/
theorem standardizeTwitterUrl_canonical_witness :
    standardizeTwitterUrl "https://www.nytimes.com/article" = "https://www.nytimes.com/article" :=
  standardizeTwitterUrl_canonical.2.2.2.2 "https://www.nytimes.com/article"
    (by decide) (by decide)

/-- C8 counterexample.  Author cleanup is not idempotent for every
input: the `part_004` version title-cases bare lowercase initials on
the first pass and only then, on a second pass, inserts periods after
them; the `src/main.ts` version strips a leading `by ` once per
pass. -/
theorem cleanAuthorName_not_idempotent :
    cleanAuthorNameV2 (cleanAuthorNameV2 "j k rowling") ≠ cleanAuthorNameV2 "j k rowling"
    ∧ cleanAuthorNameV2 "j k rowling" = "J K Rowling"
    ∧ cleanAuthorNameV2 "J K Rowling" = "J. K. Rowling"
    ∧ cleanAuthorName (cleanAuthorName "by by john") ≠ cleanAuthorName "by by john"
    ∧ cleanAuthorName "by by john" = "by john"
    ∧ cleanAuthorName "by john" = "john" := by
  refine ⟨by decide, by decide, by decide, by decide, by decide, by decide⟩

/-- C8 amended.  On the representative input the cleanup is a
retraction: `"by   jane doe "` cleans to `"Jane Doe"` under the
`part_004` version (to all-lowercase `"jane doe"` under the
`src/main.ts` version, which does not title-case), and cleaning the
result again leaves it unchanged; idempotence does not hold for every
string. -/
theorem cleanAuthorName_example_fixed_point :
    cleanAuthorNameV2 "by   jane doe " = "Jane Doe"
    ∧ cleanAuthorNameV2 "Jane Doe" = "Jane Doe"
    ∧ cleanAuthorName "by   jane doe " = "jane doe"
    ∧ cleanAuthorName "jane doe" = "jane doe" := by
  refine ⟨by decide, by decide, by decide, by decide⟩

/-! ## Split/join lemmas for the title-casing claims -/

theorem splitChar_no_sep {sep : Char} {w : List Char} (h : sep ∉ w) :
    splitChar sep w = [w] := by
  induction w with
  | nil => rfl
  | cons c cs ih =>
    have hc : ¬c = sep := fun hcs => h (hcs ▸ List.mem_cons_self c cs)
    have ih2 := ih (fun hm => h (List.mem_cons_of_mem c hm))
    simp only [splitChar, if_neg hc, ih2]

theorem splitChar_append_sep {sep : Char} {w t : List Char} (h : sep ∉ w) :
    splitChar sep (w ++ sep :: t) = w :: splitChar sep t := by
  induction w with
  | nil => simp [splitChar]
  | cons c cs ih =>
    have hc : ¬c = sep := fun hcs => h (hcs ▸ List.mem_cons_self c cs)
    have ih2 := ih (fun hm => h (List.mem_cons_of_mem c hm))
    simp only [List.cons_append, splitChar, if_neg hc, List.append_eq, ih2]

theorem splitChar_joinChar {sep : Char} {ws : List (List Char)} (hne : ws ≠ [])
    (h : ∀ w ∈ ws, sep ∉ w) : splitChar sep (joinChar sep ws) = ws := by
  induction ws with
  | nil => exact absurd rfl hne
  | cons w ws ih =>
    cases ws with
    | nil => exact splitChar_no_sep (h w (List.mem_cons_self w []))
    | cons w' t =>
      have h1 : sep ∉ w := h w (List.mem_cons_self w (w' :: t))
      have h2 : ∀ v ∈ w' :: t, sep ∉ v := fun v hv => h v (List.mem_cons_of_mem w hv)
      simp only [joinChar]
      rw [splitChar_append_sep h1, ih (by simp) h2]

theorem lowerCL_joinChar {ws : List (List Char)} (h : ∀ w ∈ ws, lowerCL w = w) :
    lowerCL (joinChar ' ' ws) = joinChar ' ' ws := by
  induction ws with
  | nil => rfl
  | cons w ws ih =>
    cases ws with
    | nil => exact h w (List.mem_cons_self w [])
    | cons w' t =>
      have h1 : lowerCL w = w := h w (List.mem_cons_self w (w' :: t))
      have h2 := ih (fun v hv => h v (List.mem_cons_of_mem w hv))
      simp only [joinChar, lowerCL] at *
      rw [List.map_append, h1]
      simp only [List.map_cons]
      rw [show Char.toLower ' ' = ' ' from rfl, h2]

theorem splitWsAux_word {w : List Char} (hw : ∀ c ∈ w, isWsChar c = false) :
    ∀ cur l, splitWsAux false cur (w ++ l) = splitWsAux false (w.reverse ++ cur) l := by
  induction w with
  | nil => intro cur l; rfl
  | cons c cs ih =>
    intro cur l
    have hc : isWsChar c = false := hw c (List.mem_cons_self c cs)
    have ih2 := ih (fun d hd => hw d (List.mem_cons_of_mem c hd))
    simp only [List.cons_append, splitWsAux, hc, Bool.false_eq_true, if_false,
      List.append_eq]
    rw [ih2 (c :: cur) l]
    simp

theorem splitWsAux_restart {c : Char} {cs : List Char} (hc : isWsChar c = false) :
    splitWsAux true [] (c :: cs) = splitWsAux false [] (c :: cs) := by
  simp [splitWsAux, hc]

theorem joinChar_head {w : List Char} (t : List (List Char)) (c : Char) (cs : List Char)
    (hw : w = c :: cs) : ∃ ds, joinChar ' ' (w :: t) = c :: ds := by
  cases t with
  | nil => exact ⟨cs, by simp [joinChar, hw]⟩
  | cons u us => exact ⟨cs ++ ' ' :: joinChar ' ' (u :: us), by simp [joinChar, hw]⟩

theorem splitWs_joinChar {ws : List (List Char)} (hne : ws ≠ [])
    (h : ∀ w ∈ ws, w ≠ [] ∧ ∀ c ∈ w, isWsChar c = false) :
    splitWs (joinChar ' ' ws) = ws := by
  induction ws with
  | nil => exact absurd rfl hne
  | cons w ws ih =>
    have hw := h w (List.mem_cons_self w ws)
    cases ws with
    | nil =>
      show splitWsAux false [] (joinChar ' ' [w]) = [w]
      have : joinChar ' ' [w] = w ++ [] := by simp [joinChar]
      rw [this, splitWsAux_word hw.2]
      simp [splitWsAux]
    | cons w' t =>
      have hw' := h w' (List.mem_cons_of_mem w (List.mem_cons_self w' t))
      show splitWsAux false [] (joinChar ' ' (w :: w' :: t)) = w :: w' :: t
      simp only [joinChar]
      rw [splitWsAux_word hw.2]
      simp only [splitWsAux, show isWsChar ' ' = true from rfl, if_true]
      rcases List.exists_cons_of_ne_nil hw'.1 with ⟨c, cs, hcs⟩
      rcases joinChar_head t c cs hcs with ⟨ds, hds⟩
      rw [List.append_nil, List.reverse_reverse, hds,
        splitWsAux_restart (hw'.2 c (by rw [hcs]; exact List.mem_cons_self c cs)),
        ← hds]
      have ihr := ih (by simp) (fun v hv => h v (List.mem_cons_of_mem w hv))
      exact congrArg (w :: ·) ihr

theorem mem_of_getLast?_eq {α : Type} {l : List α} {x : α}
    (h : l.getLast? = some x) : x ∈ l := by
  induction l with
  | nil => simp [List.getLast?] at h
  | cons a t ih =>
    cases t with
    | nil =>
      simp [List.getLast?] at h
      simp [h]
    | cons b t2 =>
      rw [List.getLast?_cons_cons] at h
      exact List.mem_cons_of_mem a (ih h)

theorem lastIsTrigger_false {w : List Char}
    (h : ∀ c ∈ w, punctuationTriggers.contains c = false) :
    lastIsTrigger w = false := by
  simp only [lastIsTrigger]
  rcases hg : w.getLast? with _ | c
  · rfl
  · exact h c (mem_of_getLast?_eq hg)

theorem lastIsTrigger_capFirst_false {w : List Char} (hne : w ≠ [])
    (h1 : ∀ c ∈ w, punctuationTriggers.contains c = false)
    (h2 : ∀ c ∈ w, punctuationTriggers.contains c.toUpper = false) :
    lastIsTrigger (capFirst w) = false := by
  rcases List.exists_cons_of_ne_nil hne with ⟨c, cs, rfl⟩
  apply lastIsTrigger_false
  intro d hd
  simp only [capFirst] at hd
  rcases List.mem_cons.mp hd with hh | hh
  · rw [hh]
    exact h2 c (List.mem_cons_self c cs)
  · exact h1 d (List.mem_cons_of_mem c hh)

theorem titleLoop_tail {ws : List (List Char)}
    (h : ∀ w ∈ ws, w ≠ []
      ∧ ∀ c ∈ w, punctuationTriggers.contains c = false
          ∧ leadingPunctChars.contains c = false
          ∧ punctuationTriggers.contains c.toUpper = false) :
    ∀ p, lastIsTrigger p = false →
    titleLoop ws (some p) false
      = ws.map (fun w => if minorWordsMain.contains w then w else capFirst w) := by
  induction ws with
  | nil => intro p hp; rfl
  | cons w ws ih =>
    intro p hp
    have hw := h w (List.mem_cons_self w ws)
    rcases List.exists_cons_of_ne_nil hw.1 with ⟨c, cs, hw_eq⟩
    have hcw0 : leadingPunctChars.contains c = false :=
      (hw.2 c (by rw [hw_eq]; exact List.mem_cons_self c cs)).2.1
    have hlead : List.takeWhile (fun c => leadingPunctChars.contains c) w = [] := by
      rw [hw_eq, List.takeWhile_cons]
      rw [show (leadingPunctChars.contains c) = false from hcw0]
      simp
    have hdropw : List.dropWhile (fun c => leadingPunctChars.contains c) w = w := by
      rw [hw_eq, List.dropWhile_cons]
      rw [show (leadingPunctChars.contains c) = false from hcw0]
      simp
    have hlt : lastIsTrigger w = false :=
      lastIsTrigger_false (fun d hd => (hw.2 d hd).1)
    have hltc : lastIsTrigger (capFirst w) = false :=
      lastIsTrigger_capFirst_false hw.1 (fun d hd => (hw.2 d hd).1)
        (fun d hd => (hw.2 d hd).2.2)
    have hrec := ih (fun v hv => h v (List.mem_cons_of_mem w hv)) w hlt
    simp only [titleLoop, hp, Bool.false_eq_true, if_false, hlead, hdropw,
      List.nil_append, Bool.false_or, List.map_cons]
    by_cases hcw : minorWordsMain.contains w = true
    · simp only [hcw, Bool.not_true, Bool.false_eq_true, if_false, if_true, hlt, hrec]
    · have hcw2 : minorWordsMain.contains w = false := by
        rcases hb : minorWordsMain.contains w with _ | _
        · rfl
        · exact absurd hb hcw
      simp only [hcw2, Bool.not_false, if_true, Bool.false_eq_true, if_false, hltc, hrec]

theorem mapIdxCL_tail (n : Nat) (ws : List (List Char)) :
    mapIdxCL (fun i w => if i = 0 || !(minorWordsMain.contains w) then capFirst w else w)
        (n + 1) ws
      = ws.map (fun w => if minorWordsMain.contains w then w else capFirst w) := by
  induction ws generalizing n with
  | nil => rfl
  | cons w ws ih =>
    simp only [mapIdxCL, List.map_cons]
    rw [ih]
    by_cases hcw : minorWordsMain.contains w = true
    · simp [hcw]
    · simp [hcw]

theorem titleLoop_chars {w : List Char} {ws : List (List Char)}
    (h : ∀ v ∈ w :: ws, v ≠ []
      ∧ ∀ c ∈ v, punctuationTriggers.contains c = false
          ∧ leadingPunctChars.contains c = false
          ∧ punctuationTriggers.contains c.toUpper = false) :
    titleLoop (w :: ws) none true
      = mapIdxCL (fun i v => if i = 0 || !(minorWordsMain.contains v) then capFirst v else v)
          0 (w :: ws) := by
  have hw := h w (List.mem_cons_self w ws)
  rcases List.exists_cons_of_ne_nil hw.1 with ⟨c, cs, hw_eq⟩
  have hcw0 : leadingPunctChars.contains c = false :=
    (hw.2 c (by rw [hw_eq]; exact List.mem_cons_self c cs)).2.1
  have hlead : List.takeWhile (fun c => leadingPunctChars.contains c) w = [] := by
    rw [hw_eq, List.takeWhile_cons]
    rw [show (leadingPunctChars.contains c) = false from hcw0]
    simp
  have hdropw : List.dropWhile (fun c => leadingPunctChars.contains c) w = w := by
    rw [hw_eq, List.dropWhile_cons]
    rw [show (leadingPunctChars.contains c) = false from hcw0]
    simp
  have hlt : lastIsTrigger w = false :=
    lastIsTrigger_false (fun d hd => (hw.2 d hd).1)
  have hltc : lastIsTrigger (capFirst w) = false :=
    lastIsTrigger_capFirst_false hw.1 (fun d hd => (hw.2 d hd).1)
      (fun d hd => (hw.2 d hd).2.2)
  have htail := titleLoop_tail (fun v hv => h v (List.mem_cons_of_mem w hv)) w hlt
  simp only [titleLoop, if_true, hlead, hdropw, List.nil_append, Bool.true_or,
    mapIdxCL, hltc, htail, mapIdxCL_tail]
  simp

/-- C9 counterexample.  `toTitleCase` in `src/main.ts` capitalizes a
minor word when the previous word ends in trigger punctuation: the
internal minor word "the" of "dune: the saga" comes out capitalized,
not lowercased. -/
theorem toTitleCase_capitalizes_minor_after_colon :
    toTitleCase "dune: the saga" = "Dune: The Saga"
    ∧ ("Dune: The Saga" : String) ≠ "Dune: the Saga" := by
  refine ⟨by decide, by decide⟩

/-- C9 amended.  Both title-casing generations map
"the lord of the rings" to "The Lord of the Rings".  In general, on a
text assembled from single-space-separated lower-case words, the
`part_002` version capitalizes exactly the first word and every
non-minor word, leaving internal minor words lowercase; the
`src/main.ts` version obeys the same rule as long as no word carries
trigger punctuation, while a minor word directly after trigger
punctuation is capitalized instead ("dune: the saga" →
"Dune: The Saga"). -/
theorem toTitleCase_minor_word_rules :
    toTitleCase "the lord of the rings" = "The Lord of the Rings"
    ∧ toTitleCaseSimple "the lord of the rings" = "The Lord of the Rings"
    ∧ toTitleCase "dune: the saga" = "Dune: The Saga"
    ∧ (∀ ws : List (List Char), ws ≠ [] →
        (∀ w ∈ ws, ' ' ∉ w ∧ lowerCL w = w) →
        toTitleCaseSimple ⟨joinChar ' ' ws⟩
          = ⟨joinChar ' ' (mapIdxCL (fun i w =>
              if i = 0 || !(minorWordsSimple.contains w) then capFirst w else w) 0 ws)⟩)
    ∧ (∀ ws : List (List Char), ws ≠ [] →
        (∀ w ∈ ws, w ≠ [] ∧ lowerCL w = w
          ∧ ∀ c ∈ w, isWsChar c = false
              ∧ punctuationTriggers.contains c = false
              ∧ leadingPunctChars.contains c = false
              ∧ punctuationTriggers.contains c.toUpper = false) →
        toTitleCase ⟨joinChar ' ' ws⟩
          = ⟨joinChar ' ' (mapIdxCL (fun i w =>
              if i = 0 || !(minorWordsMain.contains w) then capFirst w else w) 0 ws)⟩) := by
  refine ⟨by decide, by decide, by decide, ?_, ?_⟩
  · intro ws hne h
    show String.mk (joinChar ' ' (mapIdxCL _ 0 (splitChar ' ' (lowerCL (joinChar ' ' ws))))) = _
    rw [lowerCL_joinChar (fun w hw => (h w hw).2),
      splitChar_joinChar hne (fun w hw => (h w hw).1)]
  · intro ws hne h
    show String.mk (joinChar ' ' (titleLoop (splitWs (lowerCL (joinChar ' ' ws))) none true)) = _
    rw [lowerCL_joinChar (fun w hw => (h w hw).2.1),
      splitWs_joinChar hne (fun w hw => ⟨(h w hw).1, fun c hc => ((h w hw).2.2 c hc).1⟩)]
    rcases ws with _ | ⟨w, ws⟩
    · exact absurd rfl hne
    · rw [titleLoop_chars (fun v hv => ⟨(h v hv).1, fun c hc =>
        ⟨((h v hv).2.2 c hc).2.1, ((h v hv).2.2 c hc).2.2.1, ((h v hv).2.2 c hc).2.2.2⟩⟩)]

/-- Witness for C9 amended: both general word-rule conjuncts applied
to the word list of "the lord of the rings". -/
theorem toTitleCase_minor_word_rules_witness :
    (toTitleCaseSimple ⟨joinChar ' '
        ["the".data, "lord".data, "of".data, "the".data, "rings".data]⟩
      = ⟨joinChar ' ' (mapIdxCL (fun i w =>
          if i = 0 || !(minorWordsSimple.contains w) then capFirst w else w) 0
          ["the".data, "lord".data, "of".data, "the".data, "rings".data])⟩)
    ∧ (toTitleCase ⟨joinChar ' '
        ["the".data, "lord".data, "of".data, "the".data, "rings".data]⟩
      = ⟨joinChar ' ' (mapIdxCL (fun i w =>
          if i = 0 || !(minorWordsMain.contains w) then capFirst w else w) 0
          ["the".data, "lord".data, "of".data, "the".data, "rings".data])⟩) :=
  ⟨toTitleCase_minor_word_rules.2.2.2.1
      ["the".data, "lord".data, "of".data, "the".data, "rings".data]
      (by decide) (by decide),
   toTitleCase_minor_word_rules.2.2.2.2
      ["the".data, "lord".data, "of".data, "the".data, "rings".data]
      (by decide) (by decide)⟩

/-- Witness for C10: with an edge already stored for (B1, P1) under
source "Example Blog", a call with source "Podcast" changes
nothing. -/
theorem createRecommendation_ignores_source_witness :
    createRecommendation [⟨"R1", "B1", "P1", "Example Blog", "L1"⟩]
      "B1" "P1" "Podcast" "L2" "R2"
      = [⟨"R1", "B1", "P1", "Example Blog", "L1"⟩] :=
  (createRecommendation_ignores_source
      [⟨"R1", "B1", "P1", "Example Blog", "L1"⟩] "B1" "P1").1
    ⟨"R1", "B1", "P1", "Example Blog", "L1"⟩ (by decide) "Podcast" "L2" "R2"
